import Mathlib

/-!
# Verification of the RAG backend core

Shallow embedding of the retrieval-augmented-generation backend:
the vector store manager (`app/core/vector_store.py`), the document
processor (`app/core/document_processor.py`), the WebSocket connection
manager (`app/api/v1/endpoints/connection_manager.py`), the RAG service
(`app/services/rag_service.py`) and the chat orchestrator
(`app/api/v1/endpoints/chat.py`).

Python dictionaries are modelled as insertion-ordered association lists,
Python sets of connection ids as duplicate-free lists, and the external
collaborators (Chroma, LangChain, the embedding and generation models,
the WebSocket transport) as explicit parameters or spec-modelled
functions, each marked as such in its doc comment.
-/

namespace RagBackend

/-! ## Association lists (Python `dict` model)

`alookup`, `aset`, `aremove` model `d[k]`, `d[k] = v` and `del d[k]` /
`d.pop(k)` on an insertion-ordered dictionary. -/

variable {α β : Type} [DecidableEq α]

/-- `d.get(k)`: first binding of `k`, if any. -/
def alookup (k : α) : List (α × β) → Option β
  | [] => none
  | (k', v) :: rest => if k' = k then some v else alookup k rest

/-- `d[k] = v`: replace the binding of `k` in place, or append a new one. -/
def aset (k : α) (v : β) : List (α × β) → List (α × β)
  | [] => [(k, v)]
  | (k', v') :: rest => if k' = k then (k, v) :: rest else (k', v') :: aset k v rest

/-- `del d[k]` / `d.pop(k, None)`: drop the first binding of `k`. -/
def aremove (k : α) : List (α × β) → List (α × β)
  | [] => []
  | (k', v) :: rest => if k' = k then rest else (k', v) :: aremove k rest

/-- The keys of the dictionary, in insertion order. -/
def keys (m : List (α × β)) : List α := m.map Prod.fst

/-! ## Vector store (`app/core/vector_store.py`) -/

/-- `app.models.document.DocumentChunk`: one chunk row of a processed
document (the fields used by the vector store manager). -/
structure DocumentChunk where
  id : Nat
  chunk_index : Nat
  content : String
  content_hash : String
  page_number : Option Nat
  section_title : Option String
deriving Repr, DecidableEq

/-- A LangChain `Document` as built by
`VectorStoreManager.add_document_chunks` (lines 139-159): the chunk text
plus the metadata dict written there. -/
structure LangchainDocument where
  page_content : String
  document_id : Nat
  chunk_id : Nat
  chunk_index : Nat
  page_number : Option Nat
  section_title : Option String
deriving Repr, DecidableEq

/-- The persistent Chroma collection: vector-index id to stored document. -/
abbrev VectorIndex := List (String × LangchainDocument)

/-- Modelled from the spec: the external Chroma collection's add with
explicit ids — "writing the same content again overwrites in place
rather than duplicating" (spec 4.2) — so an id already present has its
entry replaced in place and a fresh id is appended. -/
def chromaUpsert (store : VectorIndex) (id : String) (doc : LangchainDocument) : VectorIndex :=
  aset id doc store

/-- Upsert a batch of (id, document) pairs in order. -/
def chromaUpsertAll (store : VectorIndex) (pairs : List (String × LangchainDocument)) : VectorIndex :=
  pairs.foldl (fun s p => chromaUpsert s p.1 p.2) store

/-- `VectorStoreManager.add_documents` (lines 73-113) on the ids-supplied
path taken by `add_document_chunks`: empty input is a no-op returning
`[]`; otherwise the documents are written under the given ids and the
ids are returned.  (`persist()` is the durability call; it does not
change the collection's contents.) -/
def VectorStoreManager.add_documents (store : VectorIndex)
    (documents : List LangchainDocument) (ids : List String) :
    List String × VectorIndex :=
  if documents.isEmpty then ([], store)
  else (ids, chromaUpsertAll store (ids.zip documents))

/-- The vector-index id assigned to a chunk at line 160:
`f"doc_{document_id}_chunk_{chunk.chunk_index}"`. -/
def chunkVectorId (document_id : Nat) (c : DocumentChunk) : String :=
  "doc_" ++ toString document_id ++ "_chunk_" ++ toString c.chunk_index

/-- The LangChain document built for a chunk at lines 140-157. -/
def chunkToDocument (document_id : Nat) (c : DocumentChunk) : LangchainDocument :=
  { page_content := c.content
    document_id := document_id
    chunk_id := c.id
    chunk_index := c.chunk_index
    page_number := c.page_number
    section_title := c.section_title }

/-- `VectorStoreManager.add_document_chunks` (lines 115-163): convert
each chunk to a LangChain document, assign it the deterministic id of
line 160, and hand both lists to `add_documents`. -/
def VectorStoreManager.add_document_chunks (store : VectorIndex)
    (chunks : List DocumentChunk) (document_id : Nat) :
    List String × VectorIndex :=
  if chunks.isEmpty then ([], store)
  else VectorStoreManager.add_documents store
    (chunks.map (chunkToDocument document_id))
    (chunks.map (chunkVectorId document_id))

/-! ## Similarity search (`app/core/vector_store.py`, lines 165-194) -/

/-- Results ordered by non-increasing relevance score: `a` precedes `b`
when `a`'s score is at least `b`'s. -/
def scoreGE (a b : LangchainDocument × ℚ) : Prop := b.2 ≤ a.2

instance : DecidableRel scoreGE := fun a b => inferInstanceAs (Decidable (b.2 ≤ a.2))

instance : IsTotal (LangchainDocument × ℚ) scoreGE := ⟨fun a b => le_total b.2 a.2⟩

instance : IsTrans (LangchainDocument × ℚ) scoreGE :=
  ⟨fun _ _ _ h1 h2 => le_trans h2 h1⟩

/-- Modelled from the spec: Chroma `similarity_search_with_score`
(external to src/).  The embedding model and the cosine relevance score
against the query are consumed as the opaque function `score`; the
stored documents (restricted by the optional metadata filter) are
returned "sorted by non-increasing similarity score (cosine), length
≤ k" (spec 4.2). -/
def chroma_similarity_search_with_score (store : VectorIndex)
    (score : LangchainDocument → ℚ) (k : Nat)
    (docFilter : Option (LangchainDocument → Bool)) :
    List (LangchainDocument × ℚ) :=
  let candidates :=
    match docFilter with
    | none => store.map Prod.snd
    | some f => (store.map Prod.snd).filter f
  (List.insertionSort scoreGE (candidates.map (fun d => (d, score d)))).take k

/-- `VectorStoreManager.similarity_search` (lines 165-194): a direct
pass-through to the underlying store's `similarity_search_with_score`. -/
def VectorStoreManager.similarity_search (store : VectorIndex)
    (score : LangchainDocument → ℚ) (k : Nat)
    (docFilter : Option (LangchainDocument → Bool)) :
    List (LangchainDocument × ℚ) :=
  chroma_similarity_search_with_score store score k docFilter

/-! ## Document processor (`app/core/document_processor.py`) -/

/-- The whitespace characters stripped by Python `str.strip()`. -/
def pythonWhitespace (c : Char) : Bool :=
  c == ' ' || c == '\t' || c == '\n' || c == '\r' ||
  c == Char.ofNat 11 || c == Char.ofNat 12

/-- Python `text.strip()` on the character list: drop leading and
trailing whitespace. -/
def pyStripChars (cs : List Char) : List Char :=
  ((cs.dropWhile pythonWhitespace).reverse.dropWhile pythonWhitespace).reverse

/-- Modelled from the spec: langchain `RecursiveCharacterTextSplitter`
(external to src/) over the cascading separators used at line 193 —
pieces of at most `chunk_size` characters, the next piece re-starting
`chunk_overlap` characters before the previous one ended (spec 4.1).
The claims below only exercise the empty-input guard of `split_text`,
which returns before this splitter is constructed. -/
def recursiveSplit (cs : List Char) (chunk_size chunk_overlap : Nat) :
    List (List Char) :=
  if chunk_size ≤ chunk_overlap then [cs]
  else if _h : cs.length ≤ chunk_size then [cs]
  else cs.take chunk_size ::
    recursiveSplit (cs.drop (chunk_size - chunk_overlap)) chunk_size chunk_overlap
termination_by cs.length
decreasing_by
  simp only [List.length_drop]
  omega

/-- `DocumentProcessor.split_text` (lines 168-197): empty or
whitespace-only input returns `[]` at line 187-188, before the splitter
is constructed; otherwise the splitter is built (its constructor, per
spec 4.1, fails unless `chunk_overlap < chunk_size`) and the text is
split. -/
def DocumentProcessor.split_text (text : String)
    (chunk_size chunk_overlap : Nat) : Except String (List (List Char)) :=
  if (pyStripChars text.toList).isEmpty then .ok []
  else if chunk_overlap < chunk_size then
    .ok (recursiveSplit text.toList chunk_size chunk_overlap)
  else .error "chunk overlap must be smaller than chunk size"

/-! ## Connection registry (`app/api/v1/endpoints/connection_manager.py`)

The WebSocket transport handle is opaque (`Nat`); the outcomes of the
external transport calls (`accept`, `send_json`, `close`) are explicit
`Bool` parameters. -/

/-- `ConnectionManager.__init__` (lines 23-28): `active_connections`
maps connection_id to the transport handle, `user_connections` maps
user_id to the set of that user's connection ids (a Python `set`,
modelled as a duplicate-free list). -/
structure ConnectionManager where
  active_connections : List (String × Nat)
  user_connections : List (Nat × List String)
deriving Repr, DecidableEq

/-- `set.add` on the duplicate-free-list model of a Python set. -/
def setAdd (x : String) (s : List String) : List String :=
  if x ∈ s then s else s ++ [x]

/-- `ConnectionManager.connect` (lines 30-58): `websocket.accept()` is
the external handshake with outcome `acceptOk`; on failure a
`WebSocketException` propagates and nothing is registered (`none`); on
success the connection is recorded in both maps (creating the user's
set if absent) and the generated id is returned. -/
def ConnectionManager.connect (m : ConnectionManager) (websocket : Nat)
    (user_id : Nat) (connection_id : String) (acceptOk : Bool) :
    Option (ConnectionManager × String) :=
  if acceptOk then
    let userSet :=
      match alookup user_id m.user_connections with
      | none => setAdd connection_id []
      | some s => setAdd connection_id s
    some ({ active_connections := aset connection_id websocket m.active_connections
            user_connections := aset user_id userSet m.user_connections },
          connection_id)
  else none

/-- The reverse lookup of `disconnect` (lines 72-76): the first user
whose connection set contains the id. -/
def findOwner (connection_id : String) : List (Nat × List String) → Option Nat
  | [] => none
  | p :: rest =>
    if connection_id ∈ p.2 then some p.1 else findOwner connection_id rest

/-- `ConnectionManager.disconnect` (lines 60-93): resolve the user by
reverse lookup when not supplied, close and drop the transport entry if
present, then discard the id from the user's set, deleting the user's
entry when the set becomes empty.  The best-effort `close()` is
external; its outcome `closeOk` is logged and never propagated, so the
resulting state does not depend on it. -/
def ConnectionManager.disconnect (m : ConnectionManager)
    (connection_id : String) (user_id : Option Nat) (closeOk : Bool) :
    ConnectionManager :=
  let _ := closeOk
  let uid :=
    match user_id with
    | some u => some u
    | none => findOwner connection_id m.user_connections
  let active :=
    if (alookup connection_id m.active_connections).isSome then
      aremove connection_id m.active_connections
    else m.active_connections
  let users :=
    match uid with
    | none => m.user_connections
    | some u =>
      match alookup u m.user_connections with
      | none => m.user_connections
      | some s =>
        let s' := s.erase connection_id
        if s'.isEmpty then aremove u m.user_connections
        else aset u s' m.user_connections
  { active_connections := active, user_connections := users }

/-- `ConnectionManager.send_message` (lines 95-125): unknown connection
id → `false`; the transport write (`send_json`) is external with
outcome `writeOk`; any write failure triggers
`disconnect(connection_id)` (user resolved by reverse lookup) and
returns `false`.  Every exception is caught, so the operation is total
(never throws) by construction. -/
def ConnectionManager.send_message (m : ConnectionManager)
    (payload : String) (connection_id : String) (writeOk : Bool) :
    ConnectionManager × Bool :=
  let _ := payload
  match alookup connection_id m.active_connections with
  | none => (m, false)
  | some _ =>
    if writeOk then (m, true)
    else (m.disconnect connection_id none true, false)

/-- The loop of `broadcast_to_user` over the snapshot list, threading
the registry state and the success counter. -/
def sendToAll (m : ConnectionManager) (payload : String)
    (cids : List String) (writeOk : String → Bool) :
    ConnectionManager × Nat :=
  cids.foldl
    (fun acc cid =>
      let r := acc.1.send_message payload cid (writeOk cid)
      (r.1, acc.2 + if r.2 then 1 else 0))
    (m, 0)

/-- `ConnectionManager.broadcast_to_user` (lines 127-145): iterate a
snapshot (`list(...)`) of the user's connection set, sending to each id;
returns the number of successful deliveries. -/
def ConnectionManager.broadcast_to_user (m : ConnectionManager)
    (payload : String) (user_id : Nat) (writeOk : String → Bool) :
    ConnectionManager × Nat :=
  match alookup user_id m.user_connections with
  | none => (m, 0)
  | some s => sendToAll m payload s writeOk

/-- `ConnectionManager.get_connection_count` (lines 158-169). -/
def ConnectionManager.get_connection_count (m : ConnectionManager)
    (user_id : Option Nat) : Nat :=
  match user_id with
  | some u => ((alookup u m.user_connections).getD []).length
  | none => m.active_connections.length

/-- The empty registry (`ConnectionManager()`). -/
def ConnectionManager.empty : ConnectionManager := ⟨[], []⟩

/-- One call against the registry; the external outcomes (handshake
accept, transport writes, transport close) are recorded inside the
operation. -/
inductive RegistryOp where
  | connect (websocket : Nat) (user_id : Nat) (connection_id : String)
      (acceptOk : Bool)
  | disconnect (connection_id : String) (user_id : Option Nat) (closeOk : Bool)
  | send (payload : String) (connection_id : String) (writeOk : Bool)
  | broadcast (payload : String) (user_id : Nat) (writeOk : String → Bool)

/-- Run one operation against the registry (a failed `connect` registers
nothing). -/
def applyOp (m : ConnectionManager) : RegistryOp → ConnectionManager
  | .connect ws u cid ok =>
    match m.connect ws u cid ok with
    | some r => r.1
    | none => m
  | .disconnect cid uid closeOk => m.disconnect cid uid closeOk
  | .send payload cid w => (m.send_message payload cid w).1
  | .broadcast payload u w => (m.broadcast_to_user payload u w).1

/-- Run a sequence of operations from a starting state. -/
def applyOps (m : ConnectionManager) (ops : List RegistryOp) :
    ConnectionManager :=
  ops.foldl applyOp m

/-- The map-consistency invariant of the registry: every connection id
in some user's connection set is a key of the transport map, and no
user is mapped to an empty set. -/
def MapsConsistent (m : ConnectionManager) : Prop :=
  (∀ p ∈ m.user_connections, ∀ c ∈ p.2, c ∈ keys m.active_connections) ∧
  (∀ p ∈ m.user_connections, p.2 ≠ [])

/-- Disjoint ownership between two user entries: no connection id of
the first belongs to the second. -/
def OwnDisj (p q : Nat × List String) : Prop := ∀ c ∈ p.2, c ∉ q.2

instance decOwnDisj : DecidableRel OwnDisj := fun p q =>
  inferInstanceAs (Decidable (∀ c ∈ p.2, c ∉ q.2))

/-- Well-formedness of a registry state: both dictionaries have distinct
keys, connection sets are duplicate-free and nonempty, every set member
is a live connection, and no connection id is owned by two users. -/
def WF (m : ConnectionManager) : Prop :=
  (keys m.active_connections).Nodup ∧
  (keys m.user_connections).Nodup ∧
  (∀ p ∈ m.user_connections, p.2.Nodup ∧ p.2 ≠ []) ∧
  (∀ p ∈ m.user_connections, ∀ c ∈ p.2, c ∈ keys m.active_connections) ∧
  List.Pairwise OwnDisj m.user_connections

/-- Side conditions under which the repository issues an operation:
`connect` registers a fresh id (`uuid4`), and a `disconnect` that
supplies a user id supplies the owner of that connection — stale ids
whose connection is already gone are allowed, matching both in-repo
call sites. -/
def opSafe (m : ConnectionManager) : RegistryOp → Prop
  | .connect _ _ cid _ =>
    cid ∉ keys m.active_connections ∧ ∀ p ∈ m.user_connections, cid ∉ p.2
  | .disconnect cid uid _ =>
    match uid with
    | none => True
    | some u => ∀ p ∈ m.user_connections, cid ∈ p.2 → p.1 = u
  | .send _ _ _ => True
  | .broadcast _ _ _ => True

/-- A trace of operations, each issued under its side condition. -/
inductive SafeTrace : ConnectionManager → List RegistryOp → Prop where
  | nil (m : ConnectionManager) : SafeTrace m []
  | cons {m : ConnectionManager} {op : RegistryOp} {ops : List RegistryOp} :
      opSafe m op → SafeTrace (applyOp m op) ops → SafeTrace m (op :: ops)

/-! ## Chat frames and streaming (`app/api/v1/endpoints/chat.py`) -/

/-- `range(start, stop, step)` for a positive step (an empty range
otherwise, matching that the code only uses the positive literal 10). -/
def pyRangeStep (start stop step : Nat) : List Nat :=
  if _h : 0 < step ∧ start < stop then
    start :: pyRangeStep (start + step) stop step
  else []
termination_by stop - start
decreasing_by omega

/-- Python slice `text[i : i + n]`. -/
def pySlice (text : List Char) (i n : Nat) : List Char :=
  (text.drop i).take n

/-- `ChatMessageType` of `app/schemas/chat.py`. -/
inductive FrameType where
  | system
  | user
  | assistant
  | error
  | typing
deriving Repr, DecidableEq

/-- `DocumentReference` of `app/schemas/chat.py` (the fields the
orchestrator would populate at lines 333-343). -/
structure DocumentReference where
  id : String
  title : String
  snippet : List Char
deriving Repr, DecidableEq

/-- One server-to-client frame: the `ChatResponse` fields written by
`chat.py` (`is_partial` defaults to `False` in the schema).
`metaSources` models the `"sources"` entry of the `metadata` dict of
streamed partial frames (line 395); `sources` is the top-level
field. -/
structure Frame where
  type : FrameType
  content : List Char
  is_partial : Bool := false
  query_id : Option Nat := none
  conversation_id : Option Nat := none
  metaSources : Option (List DocumentReference) := none
  sources : Option (List DocumentReference) := none
deriving Repr, DecidableEq

/-- The typing indicator frame of lines 257-263. -/
def typingFrame (convId : Option Nat) : Frame :=
  { type := .typing, content := [], conversation_id := convId }

/-- An error frame as sent by `_send_error` (lines 85-103). -/
def errorFrame (msg : List Char) (convId : Option Nat) : Frame :=
  { type := .error, content := msg, conversation_id := convId }

/-- The system frame announcing a newly created conversation
(lines 292-299). -/
def systemFrame (msg : List Char) (convId : Option Nat) : Frame :=
  { type := .system, content := msg, conversation_id := convId }

/-- The complete (non-partial) assistant frame of lines 403-412 and
416-425. -/
def completeAnswerFrame (text : List Char) (qid : Option Nat)
    (convId : Option Nat) (sources : List DocumentReference) : Frame :=
  { type := .assistant, content := text, query_id := qid,
    conversation_id := convId, sources := some sources }

/-- The streaming branch of `process_chat_message` (lines 380-412):
for each offset `i in range(0, len(response_text), chunk_size)` a
partial assistant frame carries the slice `[i : i+chunk_size]`; its
`metadata["sources"]` entry is the source list exactly when
`i + chunk_size >= len(response_text)` (the last slice) and `None`
otherwise; every frame carries the same `query_id`.  After the loop,
when `len(response_text) % chunk_size == 0`, one additional complete
(non-partial) assistant frame carries the entire answer with the
sources field (lines 401-412). -/
def streamAssistantFrames (response_text : List Char) (chunk_size : Nat)
    (qid : Option Nat) (convId : Option Nat)
    (sources : List DocumentReference) : List Frame :=
  let partials := (pyRangeStep 0 response_text.length chunk_size).map
    (fun i =>
      { type := .assistant
        content := pySlice response_text i chunk_size
        is_partial := true
        query_id := qid
        conversation_id := convId
        metaSources :=
          if response_text.length ≤ i + chunk_size then some sources
          else none })
  if response_text.length % chunk_size = 0 then
    partials ++ [completeAnswerFrame response_text qid convId sources]
  else partials

/-! ## RAG service (`app/services/rag_service.py`) -/

/-- A source document as returned by the external QA chain: the
metadata fields read at lines 290-292 plus the page content. -/
structure ChainDoc where
  source : String
  page : Option Nat
  page_content : List Char
deriving Repr, DecidableEq

/-- One element of the `"sources"` list shaped at lines 289-293. -/
structure SourceDict where
  source : String
  page : Option Nat
  content : List Char
deriving Repr, DecidableEq

/-- `doc.page_content[:500] + ("..." if len(doc.page_content) > 500
else "")` (line 292). -/
def pyTruncate500 (c : List Char) : List Char :=
  c.take 500 ++ (if 500 < c.length then "...".toList else [])

/-- The dict returned by `RAGService.query` (lines 286-296). -/
structure RagAnswer where
  answer : List Char
  sources : List SourceDict
deriving Repr, DecidableEq

/-- The `RAGService` state relevant to `query`: whether `self.qa_chain`
is set (truthy) and the shared vector store. -/
structure RAGServiceState where
  qa_chain : Bool
  store : VectorIndex

/-- `RAGService.__init__` (lines 64-85): embeddings, LLM, retriever and
QA chain are constructed unconditionally — line 85 always leaves
`self.qa_chain` set — whether or not the store holds any vector. -/
def RAGService.init (store : VectorIndex) : RAGServiceState :=
  { qa_chain := true, store := store }

/-- `RAGService.query` (lines 278-296): raises
`ValueError("Please load documents and create vector store first.")`
iff `self.qa_chain` is falsy; otherwise it runs the external QA chain —
whose output (generated text, retrieved source documents) is the
parameter `chainResult` — and shapes the response dict, truncating each
snippet to 500 characters.  No Query row is read or written. -/
def RAGService.query (s : RAGServiceState)
    (chainResult : List Char × List ChainDoc) :
    Except String RagAnswer :=
  if !s.qa_chain then
    .error "Please load documents and create vector store first."
  else
    .ok { answer := chainResult.1
          sources := chainResult.2.map (fun d =>
            { source := d.source
              page := d.page
              content := pyTruncate500 d.page_content }) }

/-! ## Chat orchestrator turn (`app/api/v1/endpoints/chat.py`,
`process_chat_message`) -/

/-- Message roles persisted by the orchestrator. -/
inductive Role where
  | user
  | assistant
  | system
deriving Repr, DecidableEq

/-- A `Message` row as written by `process_chat_message` (lines 301-312
and 348-366): the assistant metadata carries the extracted source
list. -/
structure MessageRow where
  conversation_id : Nat
  role : Role
  content : List Char
  metaSources : Option (List DocumentReference)
deriving Repr, DecidableEq

/-- A `Conversation` row: the fields `process_chat_message` reads and
writes (lines 277-299 and 368-375). -/
structure ConversationRow where
  id : Nat
  user_id : Nat
  title : List Char
  updated_at : Nat
  document_ids : List Nat
  temperature : Option ℚ
  last_question : Option (List Char)
  source_count : Option Nat
deriving Repr, DecidableEq

/-- `QueryStatus` of `app/models/query.py`. -/
inductive QueryStatus where
  | pending
  | processing
  | completed
  | failed
deriving Repr, DecidableEq

/-- A `Query` row (the fields the claims are about). -/
structure QueryRow where
  id : Nat
  status : QueryStatus
  error_message : Option (List Char)
deriving Repr, DecidableEq

/-- The relational state one chat turn can touch. -/
structure ChatDB where
  conversations : List ConversationRow
  messages : List MessageRow
  queries : List QueryRow
deriving Repr, DecidableEq

/-- The inbound request (`ChatMessageRequest`). -/
structure ChatRequest where
  message : List Char
  conversation_id : Option Nat
  document_ids : List Nat
  temperature : ℚ
  stream : Bool
deriving Repr, DecidableEq

/-- The observable outcome of `process_chat_message`: the database
state, the frames pushed over the connection in order, and whether the
handler returned normally (it catches every exception at line 427, so
the connection is never closed by the turn). -/
structure TurnResult where
  db : ChatDB
  frames : List Frame
  connectionOpen : Bool
deriving Repr, DecidableEq

/-- Lines 331-346 of `chat.py`: every iteration of the
source-extraction loop evaluates `os.path.basename`, but `os` is never
imported in `chat.py`; the resulting `NameError` is swallowed by the
inner `except Exception: ... continue`, so no element is ever appended
and the extracted list is always empty. -/
def extractSources (rs : List SourceDict) : List DocumentReference :=
  rs.foldl (fun acc _ => acc) []

/-- Steps 3-6 of the turn, after the conversation is resolved
(lines 301-425): persist the user message and commit; run the pipeline;
on an exception send an error frame and return (no assistant row); on
success persist the assistant message with the extracted sources,
update the conversation's `updated_at` and metadata, commit, and send
either the streamed frames (`chunk_size = 10`, `query_id =
result.get("query_id")`, which is `None` — the pipeline result has no
such key) or one complete frame. -/
def processTurnBody (req : ChatRequest) (db : ChatDB)
    (conv : ConversationRow) (prefixFrames : List Frame)
    (pipeline : Except (List Char) RagAnswer) (now : Nat) : TurnResult :=
  let db1 : ChatDB :=
    { db with messages := db.messages ++
        [{ conversation_id := conv.id
           role := .user
           content := req.message
           metaSources := none }] }
  match pipeline with
  | .error e =>
    { db := db1
      frames := prefixFrames ++
        [errorFrame
          ("An error occurred while processing your request: ".toList ++ e)
          req.conversation_id]
      connectionOpen := true }
  | .ok res =>
    let sources := extractSources res.sources
    let assistantMsg : MessageRow :=
      { conversation_id := conv.id
        role := .assistant
        content := res.answer
        metaSources := some sources }
    let conv2 : ConversationRow :=
      { conv with
        updated_at := now
        last_question := some (req.message.take 200)
        document_ids := req.document_ids
        source_count := some sources.length }
    let db2 : ChatDB :=
      { db1 with
        messages := db1.messages ++ [assistantMsg]
        conversations := db1.conversations.map
          (fun c => if c.id == conv.id then conv2 else c) }
    let answerFrames :=
      if req.stream then
        streamAssistantFrames res.answer 10 none (some conv.id) sources
      else
        [completeAnswerFrame res.answer none (some conv.id) sources]
    { db := db2, frames := prefixFrames ++ answerFrames,
      connectionOpen := true }

/-- `process_chat_message` (lines 242-433): send the typing frame;
resolve the conversation — a client-supplied id that is unknown or
foreign yields a "Conversation not found" error frame and an early
return; a missing id creates a new conversation titled with the first
100 characters and announces it — then run the turn body.  `pipeline`
is the outcome of `rag_service.query`, `now` the wall clock, and
`newConvId` the id the database assigns a created conversation. -/
def processChatMessage (req : ChatRequest) (userId : Nat) (db : ChatDB)
    (pipeline : Except (List Char) RagAnswer) (now : Nat)
    (newConvId : Nat) : TurnResult :=
  let typing := typingFrame req.conversation_id
  match req.conversation_id with
  | some cid =>
    match db.conversations.find?
        (fun c => c.id == cid && c.user_id == userId) with
    | none =>
      { db := db
        frames := [typing, errorFrame "Conversation not found".toList
          (some cid)]
        connectionOpen := true }
    | some conv => processTurnBody req db conv [typing] pipeline now
  | none =>
    let conv : ConversationRow :=
      { id := newConvId
        user_id := userId
        title := req.message.take 100
        updated_at := now
        document_ids := req.document_ids
        temperature := some req.temperature
        last_question := none
        source_count := none }
    processTurnBody req
      { db with conversations := db.conversations ++ [conv] } conv
      [typing,
       systemFrame ("New conversation started: ".toList ++ conv.title)
         (some conv.id)]
      pipeline now

instance decMapsConsistent (m : ConnectionManager) :
    Decidable (MapsConsistent m) :=
  inferInstanceAs (Decidable (_ ∧ _))

instance decWF (m : ConnectionManager) : Decidable (WF m) :=
  inferInstanceAs (Decidable (_ ∧ _ ∧ _ ∧ _ ∧ _))

instance decOpSafe (m : ConnectionManager) (op : RegistryOp) :
    Decidable (opSafe m op) :=
  match op with
  | .connect _ _ cid _ =>
    inferInstanceAs (Decidable (cid ∉ keys m.active_connections ∧
      ∀ p ∈ m.user_connections, cid ∉ p.2))
  | .disconnect cid uid _ =>
    match uid with
    | none => inferInstanceAs (Decidable True)
    | some u =>
      inferInstanceAs (Decidable (∀ p ∈ m.user_connections, cid ∈ p.2 → p.1 = u))
  | .send _ _ _ => inferInstanceAs (Decidable True)
  | .broadcast _ _ _ => inferInstanceAs (Decidable True)

end RagBackend

namespace RagBackend

/-! ## Association-list lemmas -/

variable {α β : Type} [DecidableEq α]

theorem alookup_aset_self (k : α) (v : β) :
    ∀ m : List (α × β), alookup k (aset k v m) = some v := by
  intro m
  induction m with
  | nil => simp [aset, alookup]
  | cons p rest ih =>
    by_cases h : p.1 = k
    · simp [aset, h, alookup]
    · simp [aset, h, alookup, ih]

theorem alookup_aset_other {k k' : α} (h : k' ≠ k) (v : β) :
    ∀ m : List (α × β), alookup k' (aset k v m) = alookup k' m := by
  intro m
  have hk : ¬ k = k' := fun hk => h hk.symm
  induction m with
  | nil => simp [aset, alookup, hk]
  | cons p rest ih =>
    by_cases hp : p.1 = k
    · have hp' : ¬ p.1 = k' := by rw [hp]; exact hk
      simp [aset, hp, alookup, hk, hp']
    · simp [aset, hp, alookup, ih]

theorem mem_keys_aset (k : α) (v : β) (k' : α) :
    ∀ m : List (α × β), k' ∈ keys (aset k v m) ↔ k' ∈ keys m ∨ k' = k := by
  intro m
  induction m with
  | nil => simp [aset, keys, eq_comm]
  | cons p rest ih =>
    by_cases hp : p.1 = k
    · subst hp
      simp [aset, keys] at ih ⊢
      tauto
    · simp [aset, hp, keys] at ih ⊢
      tauto

theorem length_aset_of_mem {k : α} (v : β) :
    ∀ {m : List (α × β)}, k ∈ keys m → (aset k v m).length = m.length := by
  intro m
  induction m with
  | nil => intro h; simp [keys] at h
  | cons p rest ih =>
    intro h
    by_cases hp : p.1 = k
    · simp [aset, hp]
    · simp only [keys, List.map_cons, List.mem_cons] at h
      rcases h with h | h
      · exact absurd h.symm hp
      · simp [aset, hp, ih h]

theorem mem_aset (k : α) (v : β) {p : α × β} :
    ∀ {m : List (α × β)}, p ∈ aset k v m → p = (k, v) ∨ p ∈ m := by
  intro m
  induction m with
  | nil => intro h; simpa [aset] using h
  | cons q rest ih =>
    intro h
    by_cases hq : q.1 = k
    · simp only [aset, if_pos hq, List.mem_cons] at h
      rcases h with h | h
      · exact Or.inl h
      · exact Or.inr (List.mem_cons_of_mem q h)
    · simp only [aset, if_neg hq, List.mem_cons] at h
      rcases h with h | h
      · exact Or.inr (h ▸ List.mem_cons_self q rest)
      · rcases ih h with h' | h'
        · exact Or.inl h'
        · exact Or.inr (List.mem_cons_of_mem q h')

theorem mem_aremove {k : α} {p : α × β} {m : List (α × β)}
    (h : p ∈ aremove k m) : p ∈ m := by
  induction m with
  | nil => simp [aremove] at h
  | cons q rest ih =>
    by_cases hq : q.1 = k
    · simp only [aremove, if_pos hq] at h
      exact List.mem_cons_of_mem q h
    · simp only [aremove, if_neg hq, List.mem_cons] at h
      rcases h with h | h
      · exact h ▸ List.mem_cons_self q rest
      · exact List.mem_cons_of_mem q (ih h)

theorem aremove_sublist (k : α) :
    ∀ m : List (α × β), (aremove k m).Sublist m := by
  intro m
  induction m with
  | nil => simp [aremove]
  | cons q rest ih =>
    by_cases hq : q.1 = k
    · simp only [aremove, if_pos hq]
      exact List.sublist_cons_self q rest
    · simp only [aremove, if_neg hq]
      exact ih.cons₂ q

theorem mem_keys_iff_alookup_isSome (k : α) :
    ∀ m : List (α × β), k ∈ keys m ↔ (alookup k m).isSome := by
  intro m
  induction m with
  | nil => simp [keys, alookup]
  | cons p rest ih =>
    by_cases hp : p.1 = k
    · simp [keys, alookup, hp]
    · have hp' : ¬ k = p.1 := fun h => hp h.symm
      simp only [keys, List.map_cons, List.mem_cons, alookup, if_neg hp] at ih ⊢
      constructor
      · rintro (h | h)
        · exact absurd h.symm hp
        · exact ih.1 h
      · intro h; exact Or.inr (ih.2 h)

theorem alookup_eq_none_of_not_mem_keys {k : α} {m : List (α × β)}
    (h : k ∉ keys m) : alookup k m = none := by
  have := (mem_keys_iff_alookup_isSome k m).not.1 h
  exact Option.not_isSome_iff_eq_none.1 (by simpa using this)

theorem alookup_mem {k : α} {v : β} :
    ∀ {m : List (α × β)}, alookup k m = some v → (k, v) ∈ m := by
  intro m
  induction m with
  | nil => intro h; simp [alookup] at h
  | cons q rest ih =>
    intro h
    by_cases hq : q.1 = k
    · simp only [alookup, if_pos hq] at h
      have h2 : q.2 = v := Option.some.inj h
      have heq : (k, v) = q := Prod.ext_iff.2 ⟨hq.symm, h2.symm⟩
      exact List.mem_cons.2 (Or.inl heq)
    · simp only [alookup, if_neg hq] at h
      exact List.mem_cons_of_mem q (ih h)

theorem mem_alookup_of_nodup {k : α} {v : β} :
    ∀ {m : List (α × β)}, (keys m).Nodup → (k, v) ∈ m → alookup k m = some v := by
  intro m
  induction m with
  | nil => intro _ h; cases h
  | cons q rest ih =>
    intro hnd h
    simp only [keys, List.map_cons, List.nodup_cons] at hnd
    rcases List.mem_cons.1 h with h | h
    · cases h; simp [alookup]
    · have hq : q.1 ≠ k := by
        intro hk
        exact hnd.1 (hk ▸ List.mem_map_of_mem Prod.fst h)
      simpa [alookup, hq] using ih hnd.2 h

theorem keys_aset_nodup (k : α) (v : β) :
    ∀ {m : List (α × β)}, (keys m).Nodup → (keys (aset k v m)).Nodup := by
  intro m
  induction m with
  | nil => intro _; simp [aset, keys]
  | cons q rest ih =>
    intro hnd
    simp only [keys, List.map_cons, List.nodup_cons] at hnd
    by_cases hq : q.1 = k
    · subst hq
      simpa [aset, keys] using hnd
    · have h1 : q.1 ∉ keys (aset k v rest) := by
        intro hmem
        rcases (mem_keys_aset k v q.1 rest).1 hmem with h | h
        · exact hnd.1 h
        · exact hq h
      have h2 : (keys (aset k v rest)).Nodup := ih hnd.2
      simp only [aset, if_neg hq, keys, List.map_cons, List.nodup_cons]
      simp only [keys] at h1 h2
      exact ⟨fun hmem => h1 hmem, h2⟩

theorem keys_aremove_nodup (k : α) {m : List (α × β)}
    (hnd : (keys m).Nodup) : (keys (aremove k m)).Nodup :=
  (((aremove_sublist k m).map Prod.fst).nodup) hnd

theorem not_mem_keys_aremove {k : α} :
    ∀ {m : List (α × β)}, (keys m).Nodup → k ∉ keys (aremove k m) := by
  intro m
  induction m with
  | nil => intro _; simp [aremove, keys]
  | cons q rest ih =>
    intro hnd
    simp only [keys, List.map_cons, List.nodup_cons] at hnd
    by_cases hq : q.1 = k
    · subst hq
      simpa [aremove, keys] using hnd.1
    · intro hmem
      simp only [aremove, if_neg hq, keys, List.map_cons, List.mem_cons] at hmem
      rcases hmem with h | h
      · exact hq h.symm
      · exact ih hnd.2 h

theorem alookup_aremove_self {k : α} {m : List (α × β)}
    (hnd : (keys m).Nodup) : alookup k (aremove k m) = none :=
  alookup_eq_none_of_not_mem_keys (not_mem_keys_aremove hnd)

theorem mem_keys_aremove_of_ne {k c : α} (hne : c ≠ k) :
    ∀ {m : List (α × β)}, c ∈ keys m → c ∈ keys (aremove k m) := by
  intro m
  induction m with
  | nil => intro h; simp [keys] at h
  | cons q rest ih =>
    intro h
    simp only [keys, List.map_cons, List.mem_cons] at h
    by_cases hq : q.1 = k
    · rcases h with h | h
      · exact absurd (h.trans hq) hne
      · simp only [aremove, if_pos hq, keys]
        exact h
    · rcases h with h | h
      · simp only [aremove, if_neg hq, keys, List.map_cons, List.mem_cons]
        exact Or.inl h
      · have := ih (show c ∈ keys rest from h)
        simp only [aremove, if_neg hq, keys, List.map_cons, List.mem_cons]
        simp only [keys] at this
        exact Or.inr this

theorem mem_aset_self_eq {k : α} {v w : β} :
    ∀ {m : List (α × β)}, (keys m).Nodup → (k, w) ∈ aset k v m → w = v := by
  intro m
  induction m with
  | nil =>
    intro _ h
    simp only [aset, List.mem_singleton, Prod.mk.injEq] at h
    exact h.2
  | cons q rest ih =>
    intro hnd h
    simp only [keys, List.map_cons, List.nodup_cons] at hnd
    by_cases hq : q.1 = k
    · rw [show aset k v (q :: rest) = (k, v) :: rest from by simp [aset, hq]] at h
      rcases List.mem_cons.1 h with h | h
      · exact (Prod.ext_iff.1 h).2
      · have hk : k ∈ List.map Prod.fst rest := List.mem_map_of_mem Prod.fst h
        exact absurd hk (hq ▸ hnd.1)
    · simp only [aset, if_neg hq, List.mem_cons] at h
      rcases h with h | h
      · exact absurd (congrArg Prod.fst h).symm hq
      · exact ih hnd.2 h

/-! ## Idempotent re-ingestion (claim C1 support) -/

theorem mem_keys_chromaUpsertAll_of_mem {m : VectorIndex}
    (pairs : List (String × LangchainDocument)) {k : String} (h : k ∈ keys m) :
    k ∈ keys (chromaUpsertAll m pairs) := by
  induction pairs generalizing m with
  | nil => simpa [chromaUpsertAll]
  | cons p rest ih =>
    simp only [chromaUpsertAll, List.foldl_cons]
    exact ih ((mem_keys_aset p.1 p.2 k m).2 (Or.inl h))

theorem mem_keys_chromaUpsertAll_of_pair {m : VectorIndex}
    {pairs : List (String × LangchainDocument)} {p : String × LangchainDocument}
    (hp : p ∈ pairs) : p.1 ∈ keys (chromaUpsertAll m pairs) := by
  induction pairs generalizing m with
  | nil => cases hp
  | cons q rest ih =>
    simp only [chromaUpsertAll, List.foldl_cons]
    rcases List.mem_cons.1 hp with h | h
    · subst h
      exact mem_keys_chromaUpsertAll_of_mem rest
        ((mem_keys_aset p.1 p.2 p.1 m).2 (Or.inr rfl))
    · exact ih h

theorem length_chromaUpsertAll_of_keys_present {m : VectorIndex}
    {pairs : List (String × LangchainDocument)}
    (h : ∀ p ∈ pairs, p.1 ∈ keys m) :
    (chromaUpsertAll m pairs).length = m.length := by
  induction pairs generalizing m with
  | nil => simp [chromaUpsertAll]
  | cons p rest ih =>
    simp only [chromaUpsertAll, List.foldl_cons]
    have hmem : p.1 ∈ keys m := h p (List.mem_cons_self p rest)
    have hlen : (chromaUpsert m p.1 p.2).length = m.length :=
      length_aset_of_mem p.2 hmem
    have hkeys : ∀ q ∈ rest, q.1 ∈ keys (chromaUpsert m p.1 p.2) := by
      intro q hq
      exact (mem_keys_aset p.1 p.2 q.1 m).2 (Or.inl (h q (List.mem_cons_of_mem p hq)))
    calc (chromaUpsertAll (chromaUpsert m p.1 p.2) rest).length
        = (chromaUpsert m p.1 p.2).length := ih hkeys
      _ = m.length := hlen

/-! ## Connection registry lemmas -/

theorem ownDisj_symmetric : Symmetric OwnDisj :=
  fun _ _ h c hcq hcp => h c hcp hcq

theorem pairwise_forall_ne {l : List (Nat × List String)}
    (hpw : List.Pairwise OwnDisj l) {p q : Nat × List String}
    (hp : p ∈ l) (hq : q ∈ l) (hne : p ≠ q) : OwnDisj p q :=
  hpw.forall ownDisj_symmetric hp hq hne

theorem owner_unique {l : List (Nat × List String)}
    (hpw : List.Pairwise OwnDisj l) {u : Nat} {s : List String} {cid : String}
    (hus : (u, s) ∈ l) (hcid : cid ∈ s) :
    ∀ p ∈ l, cid ∈ p.2 → p.1 = u := by
  intro p hp hcp
  by_cases hpq : p = (u, s)
  · rw [hpq]
  · have hdisj : OwnDisj (u, s) p :=
      pairwise_forall_ne hpw hus hp (fun h => hpq h.symm)
    exact absurd hcp (hdisj cid hcid)

theorem values_eq_of_keys_nodup {k : α} {v w : β} {m : List (α × β)}
    (hnd : (keys m).Nodup) (hv : (k, v) ∈ m) (hw : (k, w) ∈ m) : v = w := by
  have h1 := mem_alookup_of_nodup hnd hv
  have h2 := mem_alookup_of_nodup hnd hw
  exact Option.some.inj (h1.symm.trans h2)

theorem aset_self {k : α} {s : β} :
    ∀ {m : List (α × β)}, alookup k m = some s → aset k s m = m := by
  intro m
  induction m with
  | nil => intro h; simp [alookup] at h
  | cons q rest ih =>
    intro h
    by_cases hq : q.1 = k
    · simp only [alookup, if_pos hq] at h
      have h2 : q.2 = s := Option.some.inj h
      simp only [aset, if_pos hq]
      rw [← hq, ← h2]
    · simp only [alookup, if_neg hq] at h
      simp only [aset, if_neg hq, ih h]

theorem findOwner_none_iff (cid : String) :
    ∀ l : List (Nat × List String),
      findOwner cid l = none ↔ ∀ p ∈ l, cid ∉ p.2 := by
  intro l
  induction l with
  | nil => simp [findOwner]
  | cons p rest ih =>
    by_cases hp : cid ∈ p.2
    · constructor
      · intro h
        simp only [findOwner, if_pos hp] at h
        exact absurd h (Option.some_ne_none _)
      · intro h
        exact absurd hp (h p (List.mem_cons_self p rest))
    · constructor
      · intro h q hq
        simp only [findOwner, if_neg hp] at h
        rcases List.mem_cons.1 hq with hq | hq
        · exact hq ▸ hp
        · exact (ih.1 h) q hq
      · intro h
        simp only [findOwner, if_neg hp]
        exact ih.2 (fun q hq => h q (List.mem_cons_of_mem p hq))

theorem findOwner_eq_of_mem {cid : String} {u : Nat} {s : List String} :
    ∀ {l : List (Nat × List String)}, List.Pairwise OwnDisj l →
      (u, s) ∈ l → cid ∈ s → findOwner cid l = some u := by
  intro l
  induction l with
  | nil => intro _ h _; cases h
  | cons p rest ih =>
    intro hpw hmem hcid
    rcases List.pairwise_cons.1 hpw with ⟨hp, hrest⟩
    rcases List.mem_cons.1 hmem with heq | hmem'
    · have h1 : cid ∈ p.2 := by rw [← heq]; exact hcid
      have h2 : u = p.1 := congrArg Prod.fst heq
      simp only [findOwner, if_pos h1, h2]
    · by_cases hcp : cid ∈ p.2
      · exact absurd hcid (hp (u, s) hmem' cid hcp)
      · simp only [findOwner, if_neg hcp]
        exact ih hrest hmem' hcid

theorem pairwise_aset_disj {u : Nat} {v : List String} :
    ∀ {m : List (Nat × List String)}, (keys m).Nodup →
      List.Pairwise OwnDisj m →
      (∀ q ∈ m, q.1 ≠ u → OwnDisj (u, v) q ∧ OwnDisj q (u, v)) →
      List.Pairwise OwnDisj (aset u v m) := by
  intro m
  induction m with
  | nil => intro _ _ _; simp [aset]
  | cons p rest ih =>
    intro hnd hpw hdisj
    simp only [keys, List.map_cons, List.nodup_cons] at hnd
    rcases List.pairwise_cons.1 hpw with ⟨hp, hrest⟩
    by_cases hpu : p.1 = u
    · rw [show aset u v (p :: rest) = (u, v) :: rest from by simp [aset, hpu]]
      refine List.pairwise_cons.2 ⟨?_, hrest⟩
      intro q hq
      have hqu : q.1 ≠ u := by
        intro hqeq
        exact hnd.1 (hpu ▸ hqeq ▸ List.mem_map_of_mem Prod.fst hq)
      exact (hdisj q (List.mem_cons_of_mem p hq) hqu).1
    · rw [show aset u v (p :: rest) = p :: aset u v rest from by simp [aset, hpu]]
      refine List.pairwise_cons.2 ⟨?_, ?_⟩
      · intro q hq
        rcases mem_aset u v hq with hq' | hq'
        · exact hq' ▸ (hdisj p (List.mem_cons_self p rest) hpu).2
        · exact hp q hq'
      · exact ih hnd.2 hrest
          (fun q hq hqu => hdisj q (List.mem_cons_of_mem p hq) hqu)

theorem disconnect_active_spec (m : ConnectionManager) (cid : String)
    (uid : Option Nat) (b : Bool) :
    (m.disconnect cid uid b).active_connections =
      if (alookup cid m.active_connections).isSome then
        aremove cid m.active_connections
      else m.active_connections := rfl

theorem disconnect_users_spec (m : ConnectionManager) (cid : String)
    (uid : Option Nat) (b : Bool) :
    (m.disconnect cid uid b).user_connections =
      match (match uid with
             | some u => some u
             | none => findOwner cid m.user_connections) with
      | none => m.user_connections
      | some u =>
        match alookup u m.user_connections with
        | none => m.user_connections
        | some s =>
          if (s.erase cid).isEmpty then aremove u m.user_connections
          else aset u (s.erase cid) m.user_connections := rfl

theorem disconnect_active_none {m : ConnectionManager} {cid : String}
    (uid : Option Nat) (b : Bool)
    (hnd : (keys m.active_connections).Nodup) :
    alookup cid (m.disconnect cid uid b).active_connections = none := by
  rw [disconnect_active_spec]
  by_cases h : (alookup cid m.active_connections).isSome
  · rw [if_pos h]
    exact alookup_aremove_self hnd
  · rw [if_neg h]
    exact Option.not_isSome_iff_eq_none.1 h

theorem disconnect_active_mem_iff {m : ConnectionManager} {cid c : String}
    (uid : Option Nat) (b : Bool) (hne : c ≠ cid) :
    (c ∈ keys (m.disconnect cid uid b).active_connections ↔
      c ∈ keys m.active_connections) := by
  rw [disconnect_active_spec]
  by_cases h : (alookup cid m.active_connections).isSome
  · rw [if_pos h]
    constructor
    · intro hc
      exact ((aremove_sublist cid m.active_connections).map Prod.fst).subset hc
    · exact mem_keys_aremove_of_ne hne
  · rw [if_neg h]

theorem disconnect_active_nodup {m : ConnectionManager} {cid : String}
    (uid : Option Nat) (b : Bool)
    (hnd : (keys m.active_connections).Nodup) :
    (keys (m.disconnect cid uid b).active_connections).Nodup := by
  rw [disconnect_active_spec]
  by_cases h : (alookup cid m.active_connections).isSome
  · rw [if_pos h]
    exact keys_aremove_nodup cid hnd
  · rwa [if_neg h]

theorem disconnect_users_cases (m : ConnectionManager) (cid : String)
    (uid : Option Nat) (b : Bool) (hwf : WF m)
    (hsafe : ∀ u, uid = some u → ∀ p ∈ m.user_connections, cid ∈ p.2 → p.1 = u) :
    ((∀ p ∈ m.user_connections, cid ∉ p.2) ∧
       (m.disconnect cid uid b).user_connections = m.user_connections) ∨
    (∃ u s, alookup u m.user_connections = some s ∧ cid ∈ s ∧
       (∀ p ∈ m.user_connections, cid ∈ p.2 → p.1 = u) ∧
       (m.disconnect cid uid b).user_connections =
         (if (s.erase cid).isEmpty then aremove u m.user_connections
          else aset u (s.erase cid) m.user_connections)) := by
  have hndu := hwf.2.1
  have hsets := hwf.2.2.1
  have hpw := hwf.2.2.2.2
  rcases uid with _ | u
  case some =>
    have howner := hsafe u rfl
    cases hlk : alookup u m.user_connections with
    | none =>
      left
      refine ⟨?_, ?_⟩
      · intro p hp hcp
        have hpu : p.1 = u := howner p hp hcp
        have hkey : p.1 ∈ keys m.user_connections :=
          List.mem_map_of_mem Prod.fst hp
        rw [hpu, mem_keys_iff_alookup_isSome, hlk] at hkey
        simp at hkey
      · rw [disconnect_users_spec]
        simp [hlk]
    | some s =>
      by_cases hcs : cid ∈ s
      · right
        refine ⟨u, s, hlk, hcs, howner, ?_⟩
        rw [disconnect_users_spec]
        simp [hlk]
      · left
        refine ⟨?_, ?_⟩
        · intro p hp hcp
          have hpu : p.1 = u := howner p hp hcp
          have hpeq : p = (u, p.2) := Prod.ext_iff.2 ⟨hpu, rfl⟩
          have h1 : (u, p.2) ∈ m.user_connections := by
            rw [← hpeq]; exact hp
          have hps : p.2 = s :=
            values_eq_of_keys_nodup hndu h1 (alookup_mem hlk)
          exact hcs (hps ▸ hcp)
        · have herase : s.erase cid = s := List.erase_of_not_mem hcs
          have hne : ¬ (s.erase cid).isEmpty := by
            rw [herase, List.isEmpty_iff]
            exact (hsets (u, s) (alookup_mem hlk)).2
          rw [disconnect_users_spec]
          simp only [hlk]
          rw [if_neg hne, herase]
          exact aset_self hlk
  case none =>
    cases hfind : findOwner cid m.user_connections with
    | none =>
      left
      refine ⟨(findOwner_none_iff cid m.user_connections).1 hfind, ?_⟩
      rw [disconnect_users_spec]
      simp [hfind]
    | some u =>
      right
      have hex : ∀ l : List (Nat × List String), findOwner cid l = some u →
          ∃ s₀, (u, s₀) ∈ l ∧ cid ∈ s₀ := by
        intro l
        induction l with
        | nil => intro hf; simp [findOwner] at hf
        | cons p rest ih =>
          intro hf
          by_cases hp : cid ∈ p.2
          · simp only [findOwner, if_pos hp] at hf
            refine ⟨p.2, ?_, hp⟩
            have hpeq : p = (u, p.2) :=
              Prod.ext_iff.2 ⟨Option.some.inj hf, rfl⟩
            rw [← hpeq]
            exact List.mem_cons_self p rest
          · simp only [findOwner, if_neg hp] at hf
            obtain ⟨s₀, hs₀, hcs₀⟩ := ih hf
            exact ⟨s₀, List.mem_cons_of_mem p hs₀, hcs₀⟩
      obtain ⟨s₀, hs₀, hcs₀⟩ := hex m.user_connections hfind
      have hlk : alookup u m.user_connections = some s₀ :=
        mem_alookup_of_nodup hndu hs₀
      refine ⟨u, s₀, hlk, hcs₀, owner_unique hpw hs₀ hcs₀, ?_⟩
      rw [disconnect_users_spec]
      simp [hfind, hlk]

theorem disconnect_purges (m : ConnectionManager) (cid : String)
    (uid : Option Nat) (b : Bool) (hwf : WF m)
    (hsafe : ∀ u, uid = some u → ∀ p ∈ m.user_connections, cid ∈ p.2 → p.1 = u) :
    ∀ p ∈ (m.disconnect cid uid b).user_connections, cid ∉ p.2 := by
  have hndu := hwf.2.1
  have hsets := hwf.2.2.1
  rcases disconnect_users_cases m cid uid b hwf hsafe with
    ⟨hnone, heq⟩ | ⟨u, s, hlk, hcs, howner, heq⟩
  · rw [heq]; exact hnone
  · rw [heq]
    have hsnd : s.Nodup := (hsets (u, s) (alookup_mem hlk)).1
    by_cases hempty : (s.erase cid).isEmpty
    · rw [if_pos hempty]
      intro p hp hcp
      have hpmem : p ∈ m.user_connections := mem_aremove hp
      have hpu : p.1 = u := howner p hpmem hcp
      have hkey : p.1 ∈ keys (aremove u m.user_connections) :=
        List.mem_map_of_mem Prod.fst hp
      rw [hpu] at hkey
      exact not_mem_keys_aremove hndu hkey
    · rw [if_neg hempty]
      intro p hp hcp
      rcases mem_aset u (s.erase cid) hp with hp' | hp'
      · rw [hp'] at hcp
        exact absurd hcp (by simp [hsnd.mem_erase_iff])
      · have hpu : p.1 = u := howner p hp' hcp
        have hpeq : p = (u, p.2) := Prod.ext_iff.2 ⟨hpu, rfl⟩
        have h1 : (u, p.2) ∈ m.user_connections := by
          rw [← hpeq]; exact hp'
        have hps : p.2 = s :=
          values_eq_of_keys_nodup hndu h1 (alookup_mem hlk)
        have hpeq2 : p = (u, s) := by rw [hpeq, hps]
        have hmem2 : (u, s) ∈ aset u (s.erase cid) m.user_connections := by
          rw [← hpeq2]; exact hp
        have hse : s = s.erase cid := mem_aset_self_eq hndu hmem2
        have hcontra : cid ∈ s.erase cid := hse ▸ hcs
        exact absurd hcontra (by simp [hsnd.mem_erase_iff])

theorem setAdd_nodup {x : String} {s : List String} (h : s.Nodup) :
    (setAdd x s).Nodup := by
  by_cases hx : x ∈ s
  · simpa [setAdd, hx] using h
  · simp [setAdd, hx, List.nodup_append, h, hx]

theorem setAdd_ne_nil (x : String) (s : List String) : setAdd x s ≠ [] := by
  by_cases hx : x ∈ s
  · simp only [setAdd, if_pos hx]
    exact List.ne_nil_of_mem hx
  · simp [setAdd, hx]

theorem mem_setAdd {x c : String} {s : List String} :
    c ∈ setAdd x s ↔ c ∈ s ∨ c = x := by
  by_cases hx : x ∈ s
  · simp only [setAdd, if_pos hx]
    constructor
    · exact Or.inl
    · rintro (h | h)
      · exact h
      · exact h ▸ hx
  · simp [setAdd, hx]

theorem WF_disconnect (m : ConnectionManager) (cid : String) (uid : Option Nat)
    (b : Bool) (hwf : WF m)
    (hsafe : ∀ u, uid = some u → ∀ p ∈ m.user_connections, cid ∈ p.2 → p.1 = u) :
    WF (m.disconnect cid uid b) := by
  have hnda := hwf.1
  have hndu := hwf.2.1
  have hsets := hwf.2.2.1
  have hcont := hwf.2.2.2.1
  have hpw := hwf.2.2.2.2
  have hpurge := disconnect_purges m cid uid b hwf hsafe
  refine ⟨disconnect_active_nodup uid b hnda, ?_, ?_, ?_, ?_⟩
  · rcases disconnect_users_cases m cid uid b hwf hsafe with
      ⟨_, heq⟩ | ⟨u, s, _, _, _, heq⟩
    · rw [heq]; exact hndu
    · rw [heq]
      by_cases hempty : (s.erase cid).isEmpty
      · rw [if_pos hempty]; exact keys_aremove_nodup u hndu
      · rw [if_neg hempty]; exact keys_aset_nodup u _ hndu
  · rcases disconnect_users_cases m cid uid b hwf hsafe with
      ⟨_, heq⟩ | ⟨u, s, hlk, _, _, heq⟩
    · rw [heq]; exact hsets
    · rw [heq]
      have hsnd : s.Nodup := (hsets (u, s) (alookup_mem hlk)).1
      by_cases hempty : (s.erase cid).isEmpty
      · rw [if_pos hempty]
        intro p hp
        exact hsets p (mem_aremove hp)
      · rw [if_neg hempty]
        intro p hp
        rcases mem_aset u _ hp with hp' | hp'
        · rw [hp']
          refine ⟨hsnd.erase cid, ?_⟩
          intro hnil
          have hnil2 : s.erase cid = [] := hnil
          exact hempty (by rw [hnil2]; rfl)
        · exact hsets p hp'
  · intro p hp c hc
    have hcne : c ≠ cid := fun h => hpurge p hp (h ▸ hc)
    have hcold : c ∈ keys m.active_connections := by
      rcases disconnect_users_cases m cid uid b hwf hsafe with
        ⟨_, heq⟩ | ⟨u, s, hlk, _, _, heq⟩
      · rw [heq] at hp; exact hcont p hp c hc
      · rw [heq] at hp
        by_cases hempty : (s.erase cid).isEmpty
        · rw [if_pos hempty] at hp
          exact hcont p (mem_aremove hp) c hc
        · rw [if_neg hempty] at hp
          rcases mem_aset u _ hp with hp' | hp'
          · have hcs2 : c ∈ s := by
              apply List.erase_subset
              rw [hp'] at hc
              exact hc
            exact hcont (u, s) (alookup_mem hlk) c hcs2
          · exact hcont p hp' c hc
    exact (disconnect_active_mem_iff uid b hcne).2 hcold
  · rcases disconnect_users_cases m cid uid b hwf hsafe with
      ⟨_, heq⟩ | ⟨u, s, hlk, _, _, heq⟩
    · rw [heq]; exact hpw
    · rw [heq]
      by_cases hempty : (s.erase cid).isEmpty
      · rw [if_pos hempty]
        exact List.Pairwise.sublist (aremove_sublist u _) hpw
      · rw [if_neg hempty]
        apply pairwise_aset_disj hndu hpw
        intro q hq hqu
        have hus : (u, s) ∈ m.user_connections := alookup_mem hlk
        have hne : (u, s) ≠ q := fun h => hqu (congrArg Prod.fst h).symm
        have hdisj := pairwise_forall_ne hpw hus hq hne
        constructor
        · intro c hc'
          exact hdisj c (List.erase_subset _ _ hc')
        · intro c hcq hcer
          exact hdisj c (List.erase_subset _ _ hcer) hcq

theorem WF_connect (m : ConnectionManager) (ws u : Nat) (cid : String)
    (ok : Bool) (hwf : WF m)
    (hfresh : cid ∉ keys m.active_connections ∧
      ∀ p ∈ m.user_connections, cid ∉ p.2) :
    WF (applyOp m (.connect ws u cid ok)) := by
  have hnda := hwf.1
  have hndu := hwf.2.1
  have hsets := hwf.2.2.1
  have hcont := hwf.2.2.2.1
  have hpw := hwf.2.2.2.2
  cases ok with
  | false => exact hwf
  | true =>
    have hstate : applyOp m (.connect ws u cid true) =
        { active_connections := aset cid ws m.active_connections
          user_connections :=
            aset u (match alookup u m.user_connections with
                    | none => setAdd cid []
                    | some s => setAdd cid s) m.user_connections } := rfl
    rw [hstate]
    set userSet := (match alookup u m.user_connections with
                    | none => setAdd cid []
                    | some s => setAdd cid s) with huserSet
    have hset_sub : ∀ c ∈ userSet, (∃ s, alookup u m.user_connections = some s ∧ c ∈ s) ∨ c = cid := by
      intro c hc
      rw [huserSet] at hc
      cases hlk : alookup u m.user_connections with
      | none =>
        rw [hlk] at hc
        rcases mem_setAdd.1 hc with h | h
        · cases h
        · exact Or.inr h
      | some s =>
        rw [hlk] at hc
        rcases mem_setAdd.1 hc with h | h
        · exact Or.inl ⟨s, rfl, h⟩
        · exact Or.inr h
    have hset_nodup : userSet.Nodup := by
      rw [huserSet]
      cases hlk : alookup u m.user_connections with
      | none => exact setAdd_nodup List.nodup_nil
      | some s => exact setAdd_nodup (hsets (u, s) (alookup_mem hlk)).1
    have hset_ne : userSet ≠ [] := by
      rw [huserSet]
      cases alookup u m.user_connections with
      | none => exact setAdd_ne_nil cid []
      | some s => exact setAdd_ne_nil cid s
    refine ⟨keys_aset_nodup cid ws hnda, keys_aset_nodup u userSet hndu, ?_, ?_, ?_⟩
    · intro p hp
      rcases mem_aset u userSet hp with hp' | hp'
      · rw [hp']
        exact ⟨hset_nodup, hset_ne⟩
      · exact hsets p hp'
    · intro p hp c hc
      apply (mem_keys_aset cid ws c m.active_connections).2
      rcases mem_aset u userSet hp with hp' | hp'
      · rw [hp'] at hc
        rcases hset_sub c hc with ⟨s, hlk, hcs⟩ | h
        · exact Or.inl (hcont (u, s) (alookup_mem hlk) c hcs)
        · exact Or.inr h
      · exact Or.inl (hcont p hp' c hc)
    · apply pairwise_aset_disj hndu hpw
      intro q hq hqu
      constructor
      · intro c hc
        rcases hset_sub c hc with ⟨s, hlk, hcs⟩ | h
        · have hus : (u, s) ∈ m.user_connections := alookup_mem hlk
          have hne : (u, s) ≠ q := fun h => hqu (congrArg Prod.fst h).symm
          exact pairwise_forall_ne hpw hus hq hne c hcs
        · exact h ▸ hfresh.2 q hq
      · intro c hcq hcset
        rcases hset_sub c hcset with ⟨s, hlk, hcs⟩ | h
        · have hus : (u, s) ∈ m.user_connections := alookup_mem hlk
          have hne : (u, s) ≠ q := fun h => hqu (congrArg Prod.fst h).symm
          exact pairwise_forall_ne hpw hus hq hne c hcs hcq
        · exact hfresh.2 q hq (h ▸ hcq)

theorem WF_send (m : ConnectionManager) (payload cid : String) (w : Bool)
    (hwf : WF m) : WF (m.send_message payload cid w).1 := by
  unfold ConnectionManager.send_message
  cases alookup cid m.active_connections with
  | none => exact hwf
  | some ws =>
    by_cases hw : w
    · simpa [hw] using hwf
    · simp only [Bool.not_eq_true] at hw
      simp only [hw, Bool.false_eq_true, if_false]
      exact WF_disconnect m cid none true hwf (fun u h => Option.noConfusion h)

theorem WF_sendToAll (payload : String) (writeOk : String → Bool) :
    ∀ (cids : List String) (m : ConnectionManager), WF m →
      WF (sendToAll m payload cids writeOk).1 := by
  have haux : ∀ (cids : List String) (acc : ConnectionManager × Nat), WF acc.1 →
      WF (cids.foldl
        (fun acc cid =>
          let r := acc.1.send_message payload cid (writeOk cid)
          (r.1, acc.2 + if r.2 then 1 else 0)) acc).1 := by
    intro cids
    induction cids with
    | nil => intro acc h; exact h
    | cons c rest ih =>
      intro acc h
      simp only [List.foldl_cons]
      exact ih _ (WF_send acc.1 payload c (writeOk c) h)
  intro cids m h
  unfold sendToAll
  exact haux cids (m, 0) h

theorem WF_broadcast (m : ConnectionManager) (payload : String) (u : Nat)
    (writeOk : String → Bool) (hwf : WF m) :
    WF (m.broadcast_to_user payload u writeOk).1 := by
  unfold ConnectionManager.broadcast_to_user
  cases alookup u m.user_connections with
  | none => exact hwf
  | some s => exact WF_sendToAll payload writeOk s m hwf

theorem WF_applyOp (m : ConnectionManager) (op : RegistryOp) (hwf : WF m)
    (hsafe : opSafe m op) : WF (applyOp m op) := by
  cases op with
  | connect ws u cid ok => exact WF_connect m ws u cid ok hwf hsafe
  | disconnect cid uid closeOk =>
    apply WF_disconnect m cid uid closeOk hwf
    intro u huid
    cases uid with
    | none => exact Option.noConfusion huid
    | some u2 =>
      cases huid
      exact hsafe
  | send payload cid w => exact WF_send m payload cid w hwf
  | broadcast payload u w => exact WF_broadcast m payload u w hwf

theorem WF_empty : WF ConnectionManager.empty := by
  refine ⟨List.nodup_nil, List.nodup_nil, ?_, ?_, List.Pairwise.nil⟩
  · intro p hp; cases hp
  · intro p hp; cases hp

theorem WF_applyOps {m : ConnectionManager} {ops : List RegistryOp}
    (htrace : SafeTrace m ops) (hwf : WF m) : WF (applyOps m ops) := by
  induction htrace with
  | nil => exact hwf
  | cons hsafe _ ih =>
    simp only [applyOps, List.foldl_cons]
    exact ih (WF_applyOp _ _ hwf hsafe)

/-- C1: the vector-index id assigned to a chunk during upsert is a
deterministic function of (document_id, chunk_index, content_hash) —
two chunks agreeing on those coordinates get the same id — and
re-upserting the same chunks for the same document leaves the index's
element count unchanged (idempotent re-ingestion, no duplicates). -/
theorem upsert_id_deterministic_and_reingest_idempotent :
    (∀ (d : Nat) (c₁ c₂ : DocumentChunk),
        c₁.chunk_index = c₂.chunk_index → c₁.content_hash = c₂.content_hash →
        chunkVectorId d c₁ = chunkVectorId d c₂)
    ∧ ∀ (store : VectorIndex) (chunks : List DocumentChunk) (d : Nat),
        ((VectorStoreManager.add_document_chunks
            (VectorStoreManager.add_document_chunks store chunks d).2 chunks d).2).length
        = ((VectorStoreManager.add_document_chunks store chunks d).2).length := by
  constructor
  · intro d c₁ c₂ hidx _
    simp [chunkVectorId, hidx]
  · intro store chunks d
    by_cases hempty : chunks.isEmpty
    · simp [VectorStoreManager.add_document_chunks, hempty]
    · have hdocs : ¬ (chunks.map (chunkToDocument d)).isEmpty := by
        simpa [List.isEmpty_iff] using hempty
      simp only [VectorStoreManager.add_document_chunks, if_neg hempty,
        VectorStoreManager.add_documents, if_neg hdocs]
      apply length_chromaUpsertAll_of_keys_present
      intro p hp
      exact mem_keys_chromaUpsertAll_of_pair hp

/-- Witness for C1: re-ingesting one chunk for document 1 leaves one
index entry, and two chunks with equal chunk_index and content_hash get
equal ids. -/
theorem upsert_id_deterministic_and_reingest_idempotent_witness :
    chunkVectorId 1 ⟨0, 0, "hello", "h", none, none⟩ =
      chunkVectorId 1 ⟨7, 0, "world", "h", none, none⟩ ∧
    ((VectorStoreManager.add_document_chunks
        (VectorStoreManager.add_document_chunks []
          [⟨0, 0, "hello", "h", none, none⟩] 1).2
        [⟨0, 0, "hello", "h", none, none⟩] 1).2).length =
      ((VectorStoreManager.add_document_chunks []
        [⟨0, 0, "hello", "h", none, none⟩] 1).2).length :=
  ⟨upsert_id_deterministic_and_reingest_idempotent.1 1
      ⟨0, 0, "hello", "h", none, none⟩ ⟨7, 0, "world", "h", none, none⟩ rfl rfl,
   upsert_id_deterministic_and_reingest_idempotent.2 []
      [⟨0, 0, "hello", "h", none, none⟩] 1⟩

/-- C5: for every stored index, scoring function, `k` and optional
filter, `similarity_search` returns at most `k` results, sorted by
non-increasing relevance score. -/
theorem similarity_search_length_le_and_sorted :
    ∀ (store : VectorIndex) (score : LangchainDocument → ℚ) (k : Nat)
      (docFilter : Option (LangchainDocument → Bool)),
      (VectorStoreManager.similarity_search store score k docFilter).length ≤ k ∧
      List.Sorted scoreGE
        (VectorStoreManager.similarity_search store score k docFilter) := by
  intro store score k docFilter
  constructor
  · exact List.length_take_le k _
  · exact List.Pairwise.sublist (List.take_sublist k _)
      (List.sorted_insertionSort scoreGE _)

/-- C8: splitting an empty or whitespace-only text yields zero chunks
and raises no error, for every chunk_size and chunk_overlap — the guard
precedes both the splitter construction and its overlap validation. -/
theorem split_text_whitespace_yields_no_chunks
    (chunk_size chunk_overlap : Nat) (text : String)
    (h : text.toList.all pythonWhitespace) :
    DocumentProcessor.split_text text chunk_size chunk_overlap = .ok [] := by
  have hdrop : text.toList.dropWhile pythonWhitespace = [] :=
    List.dropWhile_eq_nil_iff.2 (fun x hx => List.all_eq_true.1 h x hx)
  have hstrip : pyStripChars text.toList = [] := by
    unfold pyStripChars
    rw [hdrop]
    rfl
  unfold DocumentProcessor.split_text
  rw [hstrip]
  rfl

/-- Witness for C8: a whitespace-only text with degenerate sizes
(chunk_size 0, chunk_overlap 5) still yields zero chunks. -/
theorem split_text_whitespace_yields_no_chunks_witness :
    DocumentProcessor.split_text " \n\t " 0 5 = .ok [] :=
  split_text_whitespace_yields_no_chunks 0 5 " \n\t " (by decide)

/-- C6: `send_message` never throws (it is total by construction):
an unknown connection returns false with the state unchanged, a
successful write returns true with the state unchanged, and a write
failure disconnects the connection — removing it from both internal
maps — and returns false. -/
theorem send_message_never_throws (m : ConnectionManager)
    (payload cid : String) (writeOk : Bool) (hwf : WF m) :
    (alookup cid m.active_connections = none →
       m.send_message payload cid writeOk = (m, false)) ∧
    ((alookup cid m.active_connections).isSome → writeOk = true →
       m.send_message payload cid writeOk = (m, true)) ∧
    ((alookup cid m.active_connections).isSome → writeOk = false →
       (m.send_message payload cid writeOk).2 = false ∧
       alookup cid (m.send_message payload cid writeOk).1.active_connections
         = none ∧
       ∀ p ∈ (m.send_message payload cid writeOk).1.user_connections,
         cid ∉ p.2) := by
  refine ⟨?_, ?_, ?_⟩
  · intro h
    simp [ConnectionManager.send_message, h]
  · intro h hw
    rw [Option.isSome_iff_exists] at h
    obtain ⟨ws, hws⟩ := h
    simp [ConnectionManager.send_message, hws, hw]
  · intro h hw
    rw [Option.isSome_iff_exists] at h
    obtain ⟨ws, hws⟩ := h
    have hvac : ∀ u, (none : Option Nat) = some u →
        ∀ p ∈ m.user_connections, cid ∈ p.2 → p.1 = u :=
      fun u h => Option.noConfusion h
    have hmsg : m.send_message payload cid writeOk =
        (m.disconnect cid none true, false) := by
      simp [ConnectionManager.send_message, hws, hw]
    rw [hmsg]
    exact ⟨rfl, disconnect_active_none none true hwf.1,
      disconnect_purges m cid none true hwf hvac⟩

/-- Witness for C6: on the two-connection registry, a failed write to
connection a returns false and purges a from both maps. -/
theorem send_message_never_throws_witness :
    ((⟨[("a", 5), ("b", 6)], [(1, ["a", "b"])]⟩ :
        ConnectionManager).send_message "hi" "a" false).2 = false ∧
    alookup "a" ((⟨[("a", 5), ("b", 6)], [(1, ["a", "b"])]⟩ :
        ConnectionManager).send_message "hi" "a" false).1.active_connections
      = none ∧
    ∀ p ∈ ((⟨[("a", 5), ("b", 6)], [(1, ["a", "b"])]⟩ :
        ConnectionManager).send_message "hi" "a" false).1.user_connections,
      "a" ∉ p.2 :=
  (send_message_never_throws ⟨[("a", 5), ("b", 6)], [(1, ["a", "b"])]⟩
    "hi" "a" false (by decide)).2.2 (by decide) rfl

/-- C7: disconnecting a registered connection of user `u` (with the
user resolved by reverse lookup when not supplied) removes it from the
transport map and from `u`'s set, deletes `u`'s entry when the set
empties, decreases `count(u)` by exactly one, makes a subsequent send
to that id return false, and is unaffected by the transport-close
outcome. -/
theorem disconnect_removes_and_decrements (m : ConnectionManager)
    (payload : String) (u : Nat) (s : List String) (cid : String)
    (uidArg : Option Nat) (closeOk w : Bool) (hwf : WF m)
    (hs : alookup u m.user_connections = some s) (hcid : cid ∈ s)
    (harg : uidArg = none ∨ uidArg = some u) :
    alookup cid (m.disconnect cid uidArg closeOk).active_connections = none ∧
    (∀ t, alookup u (m.disconnect cid uidArg closeOk).user_connections
        = some t → cid ∉ t) ∧
    ((s.erase cid).isEmpty →
      alookup u (m.disconnect cid uidArg closeOk).user_connections = none) ∧
    (m.disconnect cid uidArg closeOk).get_connection_count (some u) + 1 =
      m.get_connection_count (some u) ∧
    ((m.disconnect cid uidArg closeOk).send_message payload cid w).2 = false ∧
    m.disconnect cid uidArg closeOk = m.disconnect cid uidArg (!closeOk) := by
  have hnda := hwf.1
  have hndu := hwf.2.1
  have hus : (u, s) ∈ m.user_connections := alookup_mem hs
  have hsafe : ∀ v, uidArg = some v →
      ∀ p ∈ m.user_connections, cid ∈ p.2 → p.1 = v := by
    intro v hv
    rcases harg with h | h
    · rw [h] at hv; exact Option.noConfusion hv
    · rw [h] at hv
      have : u = v := Option.some.inj hv
      exact this ▸ owner_unique hwf.2.2.2.2 hus hcid
  have hupd : (m.disconnect cid uidArg closeOk).user_connections =
      (if (s.erase cid).isEmpty then aremove u m.user_connections
       else aset u (s.erase cid) m.user_connections) := by
    rcases disconnect_users_cases m cid uidArg closeOk hwf hsafe with
      ⟨hnone, _⟩ | ⟨v, t, hlkv, hcv, hownv, heqv⟩
    · exact absurd hcid (hnone (u, s) hus)
    · have hv : u = v := hownv (u, s) hus hcid
      subst hv
      have ht : s = t := Option.some.inj (hs.symm.trans hlkv)
      subst ht
      exact heqv
  have hactive : alookup cid
      (m.disconnect cid uidArg closeOk).active_connections = none :=
    disconnect_active_none uidArg closeOk hnda
  have hspos : 0 < s.length := List.length_pos.2 (List.ne_nil_of_mem hcid)
  refine ⟨hactive, ?_, ?_, ?_, ?_, rfl⟩
  · intro t hlkt
    exact disconnect_purges m cid uidArg closeOk hwf hsafe (u, t)
      (alookup_mem hlkt)
  · intro hempty
    rw [hupd, if_pos hempty]
    exact alookup_aremove_self hndu
  · have h2 : (s.erase cid).length = s.length - 1 :=
      List.length_erase_of_mem hcid
    simp only [ConnectionManager.get_connection_count]
    rw [hupd]
    by_cases hempty : (s.erase cid).isEmpty
    · rw [if_pos hempty, alookup_aremove_self hndu, hs]
      have h3 : s.erase cid = [] := List.isEmpty_iff.1 hempty
      rw [h3] at h2
      simp only [List.length_nil] at h2
      simp only [Option.getD_none, Option.getD_some, List.length_nil]
      omega
    · rw [if_neg hempty, alookup_aset_self u (s.erase cid) _, hs]
      simp only [Option.getD_some]
      omega
  · simp [ConnectionManager.send_message, hactive]

/-- Witness for C7: disconnecting connection a of user 1 (resolved by
reverse lookup) on a two-connection registry. -/
theorem disconnect_removes_and_decrements_witness :
    alookup "a" ((⟨[("a", 5), ("b", 6)], [(1, ["a", "b"])]⟩ :
        ConnectionManager).disconnect "a" none true).active_connections
      = none ∧
    (∀ t, alookup 1 ((⟨[("a", 5), ("b", 6)], [(1, ["a", "b"])]⟩ :
        ConnectionManager).disconnect "a" none true).user_connections
        = some t → "a" ∉ t) ∧
    ((["a", "b"].erase "a").isEmpty →
      alookup 1 ((⟨[("a", 5), ("b", 6)], [(1, ["a", "b"])]⟩ :
        ConnectionManager).disconnect "a" none true).user_connections
        = none) ∧
    ((⟨[("a", 5), ("b", 6)], [(1, ["a", "b"])]⟩ :
        ConnectionManager).disconnect "a" none true).get_connection_count
        (some 1) + 1 =
      (⟨[("a", 5), ("b", 6)], [(1, ["a", "b"])]⟩ :
        ConnectionManager).get_connection_count (some 1) ∧
    (((⟨[("a", 5), ("b", 6)], [(1, ["a", "b"])]⟩ :
        ConnectionManager).disconnect "a" none true).send_message "x" "a"
        true).2 = false ∧
    (⟨[("a", 5), ("b", 6)], [(1, ["a", "b"])]⟩ :
        ConnectionManager).disconnect "a" none true =
      (⟨[("a", 5), ("b", 6)], [(1, ["a", "b"])]⟩ :
        ConnectionManager).disconnect "a" none (!true) :=
  disconnect_removes_and_decrements
    ⟨[("a", 5), ("b", 6)], [(1, ["a", "b"])]⟩ "x" 1 ["a", "b"] "a" none
    true true (by decide) rfl (by decide) (Or.inl rfl)

/-! ## Streaming lemmas -/

theorem pyRangeStep_length {S : Nat} (hS : 0 < S) (L i : Nat) :
    (pyRangeStep i L S).length = (L - i + S - 1) / S := by
  have key : ∀ n L i, L - i ≤ n →
      (pyRangeStep i L S).length = (L - i + S - 1) / S := by
    intro n
    induction n with
    | zero =>
      intro L i hle
      have hnot : ¬ (0 < S ∧ i < L) := by omega
      rw [pyRangeStep, dif_neg hnot]
      simp only [List.length_nil]
      have h0 : L - i = 0 := by omega
      rw [h0]
      exact (Nat.div_eq_of_lt (by omega)).symm
    | succ n ih =>
      intro L i hle
      by_cases hi : i < L
      · rw [pyRangeStep, dif_pos ⟨hS, hi⟩]
        simp only [List.length_cons]
        rw [ih L (i + S) (by omega)]
        rcases le_or_lt S (L - i) with hc | hc
        · have h1 : L - (i + S) + S - 1 = L - i - 1 := by omega
          have h2 : L - i + S - 1 = (L - i - 1) + S := by omega
          rw [h1, h2, Nat.add_div_right _ hS]
        · have h1 : L - (i + S) = 0 := by omega
          rw [h1]
          have h2 : (0 + S - 1) / S = 0 := Nat.div_eq_of_lt (by omega)
          have h3 : (L - i + S - 1) / S = 1 :=
            Nat.div_eq_of_lt_le (by omega) (by omega)
          rw [h2, h3]
      · rw [pyRangeStep, dif_neg (by omega)]
        simp only [List.length_nil]
        have h0 : L - i = 0 := by omega
        rw [h0]
        exact (Nat.div_eq_of_lt (by omega)).symm
  exact key (L - i) L i le_rfl

theorem pyRangeStep_slices_flatten {S : Nat} (hS : 0 < S)
    (text : List Char) :
    ∀ n i, text.length - i ≤ n →
      ((pyRangeStep i text.length S).map
        (fun j => pySlice text j S)).flatten = text.drop i := by
  intro n
  induction n with
  | zero =>
    intro i hle
    have hnot : ¬ (0 < S ∧ i < text.length) := by omega
    rw [pyRangeStep, dif_neg hnot]
    simp only [List.map_nil, List.flatten_nil]
    exact (List.drop_eq_nil_of_le (by omega)).symm
  | succ n ih =>
    intro i hle
    by_cases hi : i < text.length
    · rw [pyRangeStep, dif_pos ⟨hS, hi⟩]
      simp only [List.map_cons, List.flatten_cons]
      rw [ih (i + S) (by omega)]
      unfold pySlice
      rw [show text.drop (i + S) = (text.drop i).drop S from by
            rw [List.drop_drop]]
      exact List.take_append_drop S (text.drop i)
    · rw [pyRangeStep, dif_neg (by omega)]
      simp only [List.map_nil, List.flatten_nil]
      exact (List.drop_eq_nil_of_le (by omega)).symm

theorem pyRangeStep_sources_flags {S : Nat} (hS : 0 < S)
    (srcs : List DocumentReference) :
    ∀ n L i, L - i ≤ n → i < L →
      ((pyRangeStep i L S).map
        (fun j => if L ≤ j + S then some srcs else none)) =
      List.replicate ((pyRangeStep i L S).length - 1)
        (none : Option (List DocumentReference)) ++ [some srcs] := by
  intro n
  induction n with
  | zero => intro L i hle hi; omega
  | succ n ih =>
    intro L i hle hi
    rw [pyRangeStep, dif_pos ⟨hS, hi⟩]
    by_cases hlast : L ≤ i + S
    · have hrest : pyRangeStep (i + S) L S = [] := by
        rw [pyRangeStep, dif_neg (by omega)]
      rw [hrest]
      simp [hlast]
    · have hi2 : i + S < L := by omega
      simp only [List.map_cons, if_neg (by omega : ¬ L ≤ i + S)]
      rw [ih L (i + S) (by omega) hi2]
      have hlen : 1 ≤ (pyRangeStep (i + S) L S).length := by
        rw [pyRangeStep, dif_pos ⟨hS, hi2⟩]
        simp
      simp only [List.length_cons]
      rw [show (pyRangeStep (i + S) L S).length + 1 - 1 =
            ((pyRangeStep (i + S) L S).length - 1) + 1 from by omega]
      rw [List.replicate_succ]
      rfl

theorem stream_filter_partials (text : List Char) (S : Nat)
    (qid convId : Option Nat) (srcs : List DocumentReference) :
    (streamAssistantFrames text S qid convId srcs).filter
        (fun f => f.is_partial) =
      (pyRangeStep 0 text.length S).map
        (fun i =>
          { type := .assistant
            content := pySlice text i S
            is_partial := true
            query_id := qid
            conversation_id := convId
            metaSources :=
              if text.length ≤ i + S then some srcs
              else none : Frame }) := by
  have hall : ∀ l : List Nat,
      (l.map (fun i =>
        { type := .assistant
          content := pySlice text i S
          is_partial := true
          query_id := qid
          conversation_id := convId
          metaSources :=
            if text.length ≤ i + S then some srcs
            else none : Frame })).filter (fun f => f.is_partial) =
      l.map (fun i =>
        { type := .assistant
          content := pySlice text i S
          is_partial := true
          query_id := qid
          conversation_id := convId
          metaSources :=
            if text.length ≤ i + S then some srcs
            else none : Frame }) := by
    intro l
    apply List.filter_eq_self.2
    intro f hf
    rcases List.mem_map.1 hf with ⟨i, _, rfl⟩
    rfl
  simp only [streamAssistantFrames]
  by_cases h : text.length % S = 0
  · rw [if_pos h, List.filter_append, hall]
    simp [completeAnswerFrame, List.filter]
  · rw [if_neg h]
    exact hall _

/-- C2: with streaming requested, an answer of positive length `L` and
slice size `S` is delivered as exactly `⌈L/S⌉` partial assistant
frames, covering the text in original order (their ordered
concatenation is the answer), each carrying the same query identifier,
and with the source-attribution list only on the last partial frame. -/
theorem streaming_partial_frames_cover_answer (text : List Char)
    (S : Nat) (qid convId : Option Nat) (srcs : List DocumentReference)
    (hS : 0 < S) (hL : 0 < text.length) :
    (((streamAssistantFrames text S qid convId srcs).filter
        (fun f => f.is_partial)).length = (text.length + S - 1) / S) ∧
    ((((streamAssistantFrames text S qid convId srcs).filter
        (fun f => f.is_partial)).map (fun f => f.content)).flatten
      = text) ∧
    (∀ f ∈ (streamAssistantFrames text S qid convId srcs).filter
        (fun f => f.is_partial),
      f.query_id = qid ∧ f.type = FrameType.assistant) ∧
    (((streamAssistantFrames text S qid convId srcs).filter
        (fun f => f.is_partial)).map (fun f => f.metaSources) =
      List.replicate (((streamAssistantFrames text S qid convId srcs).filter
        (fun f => f.is_partial)).length - 1) none ++ [some srcs]) := by
  rw [stream_filter_partials]
  refine ⟨?_, ?_, ?_, ?_⟩
  · rw [List.length_map, pyRangeStep_length hS]
    rw [Nat.sub_zero]
  · rw [List.map_map]
    have heq : ((fun f : Frame => f.content) ∘ (fun i =>
        { type := .assistant
          content := pySlice text i S
          is_partial := true
          query_id := qid
          conversation_id := convId
          metaSources :=
            if text.length ≤ i + S then some srcs
            else none : Frame })) = fun j => pySlice text j S := rfl
    rw [heq, pyRangeStep_slices_flatten hS text (text.length - 0) 0 le_rfl]
    exact List.drop_zero text
  · intro f hf
    rcases List.mem_map.1 hf with ⟨i, _, rfl⟩
    exact ⟨rfl, rfl⟩
  · rw [List.length_map, List.map_map]
    have heq : ((fun f : Frame => f.metaSources) ∘ (fun i =>
        { type := .assistant
          content := pySlice text i S
          is_partial := true
          query_id := qid
          conversation_id := convId
          metaSources :=
            if text.length ≤ i + S then some srcs
            else none : Frame })) =
        fun j => if text.length ≤ j + S then some srcs else none := rfl
    rw [heq,
      pyRangeStep_sources_flags hS srcs (text.length - 0) text.length 0
        le_rfl hL]

/-- Witness for C2: streaming a three-character answer with slice size
two produces two partial frames, whose concatenation is the answer,
with the sources only on the last. -/
theorem streaming_partial_frames_cover_answer_witness :
    (0 : Nat) < 2 ∧ 0 < (['a', 'b', 'c'] : List Char).length ∧
    ((((streamAssistantFrames ['a', 'b', 'c'] 2 none none []).filter
        (fun f => f.is_partial)).length =
      ((['a', 'b', 'c'] : List Char).length + 2 - 1) / 2) ∧
    ((((streamAssistantFrames ['a', 'b', 'c'] 2 none none []).filter
        (fun f => f.is_partial)).map (fun f => f.content)).flatten
      = ['a', 'b', 'c']) ∧
    (∀ f ∈ (streamAssistantFrames ['a', 'b', 'c'] 2 none none []).filter
        (fun f => f.is_partial),
      f.query_id = none ∧ f.type = FrameType.assistant) ∧
    (((streamAssistantFrames ['a', 'b', 'c'] 2 none none []).filter
        (fun f => f.is_partial)).map (fun f => f.metaSources) =
      List.replicate
        (((streamAssistantFrames ['a', 'b', 'c'] 2 none none []).filter
          (fun f => f.is_partial)).length - 1) none ++ [some []])) :=
  ⟨by decide, by decide,
   streaming_partial_frames_cover_answer ['a', 'b', 'c'] 2 none none []
     (by decide) (by decide)⟩

/-- C9: when the answer length is a positive multiple of the slice
size, the stream carries, after the `L/S` partial frames, one
additional non-partial complete frame holding the entire answer and the
sources (so the client receives the whole text a second time); when the
length is not a multiple, every frame sent is partial. -/
theorem streaming_extra_complete_frame (text : List Char) (S : Nat)
    (qid convId : Option Nat) (srcs : List DocumentReference)
    (hS : 0 < S) :
    (0 < text.length → text.length % S = 0 →
      ∃ partials, streamAssistantFrames text S qid convId srcs =
          partials ++ [completeAnswerFrame text qid convId srcs] ∧
        partials.length = text.length / S ∧
        ∀ f ∈ partials, f.is_partial = true) ∧
    (text.length % S ≠ 0 →
      ∀ f ∈ streamAssistantFrames text S qid convId srcs,
        f.is_partial = true) := by
  constructor
  · intro hL hmod
    refine ⟨(pyRangeStep 0 text.length S).map
      (fun i =>
        { type := .assistant
          content := pySlice text i S
          is_partial := true
          query_id := qid
          conversation_id := convId
          metaSources :=
            if text.length ≤ i + S then some srcs
            else none : Frame }), ?_, ?_, ?_⟩
    · simp only [streamAssistantFrames, if_pos hmod]
    · rw [List.length_map, pyRangeStep_length hS]
      obtain ⟨q, hq⟩ := Nat.dvd_of_mod_eq_zero hmod
      rw [Nat.sub_zero, hq]
      have h1 : S * q + S - 1 = S * q + (S - 1) := by omega
      rw [h1, Nat.mul_add_div hS, Nat.div_eq_of_lt (by omega),
        Nat.mul_div_cancel_left q hS]
      omega
    · intro f hf
      rcases List.mem_map.1 hf with ⟨i, _, rfl⟩
      rfl
  · intro hmod f hf
    simp only [streamAssistantFrames, if_neg hmod] at hf
    rcases List.mem_map.1 hf with ⟨i, _, rfl⟩
    rfl

/-- Witness for C9: a four-character answer streamed with slice size
two ends with the extra complete frame after two partial frames. -/
theorem streaming_extra_complete_frame_witness :
    ∃ partials, streamAssistantFrames ['a', 'b', 'c', 'd'] 2 none none []
        = partials ++ [completeAnswerFrame ['a', 'b', 'c', 'd'] none none []] ∧
      partials.length = (['a', 'b', 'c', 'd'] : List Char).length / 2 ∧
      ∀ f ∈ partials, f.is_partial = true :=
  (streaming_extra_complete_frame ['a', 'b', 'c', 'd'] 2 none none []
    (by decide)).1 (by decide) (by decide)

/-- C3 (code-bug exhibit): on a RAG service freshly initialized over a
never-populated (empty) vector index, `query` does not fail: the
not-ready guard tests `self.qa_chain`, which `__init__` always sets, so
the `ValueError` ("Please load documents and create vector store
first.") is unreachable and the chain runs against the empty index.
No Query row is read or written on this path, so none is left in
`processing`. -/
theorem query_on_empty_index_does_not_fail :
    ∀ chainResult, (RAGService.query (RAGService.init []) chainResult).isOk
      = true := by
  intro r
  rfl

/-! ## Chat turn lemmas -/

theorem processTurnBody_error (req : ChatRequest) (db : ChatDB)
    (conv : ConversationRow) (prefixFrames : List Frame) (e : List Char)
    (now : Nat) :
    processTurnBody req db conv prefixFrames (.error e) now =
      { db := { db with messages := db.messages ++
          [{ conversation_id := conv.id
             role := .user
             content := req.message
             metaSources := none }] }
        frames := prefixFrames ++
          [errorFrame
            ("An error occurred while processing your request: ".toList ++ e)
            req.conversation_id]
        connectionOpen := true } := rfl

theorem processTurnBody_ok (req : ChatRequest) (db : ChatDB)
    (conv : ConversationRow) (prefixFrames : List Frame) (res : RagAnswer)
    (now : Nat) :
    processTurnBody req db conv prefixFrames (.ok res) now =
      { db :=
          { conversations := db.conversations.map
              (fun c => if c.id == conv.id then
                { conv with
                  updated_at := now
                  last_question := some (req.message.take 200)
                  document_ids := req.document_ids
                  source_count := some (extractSources res.sources).length }
                else c)
            messages := (db.messages ++
              [{ conversation_id := conv.id
                 role := .user
                 content := req.message
                 metaSources := none }]) ++
              [{ conversation_id := conv.id
                 role := .assistant
                 content := res.answer
                 metaSources := some (extractSources res.sources) }]
            queries := db.queries }
        frames := prefixFrames ++
          (if req.stream then
            streamAssistantFrames res.answer 10 none (some conv.id)
              (extractSources res.sources)
          else
            [completeAnswerFrame res.answer none (some conv.id)
              (extractSources res.sources)])
        connectionOpen := true } := rfl

/-- C4 counterexample: on a turn whose pipeline fails, the database
holds no Query row in status `failed` — the orchestrator never creates
or updates Query rows — while the claim requires the turn's Query to be
marked failed with the captured error. -/
theorem failed_turn_marks_no_query_failed :
    ¬ ∃ q ∈ (processChatMessage
        ⟨['h', 'i'], none, [], 1, true⟩ 1 ⟨[], [], []⟩
        (.error ['b', 'o', 'o', 'm']) 0 5).db.queries,
      q.status = QueryStatus.failed := by
  intro h
  obtain ⟨q, hq, _⟩ := h
  have hempty : (processChatMessage
      ⟨['h', 'i'], none, [], 1, true⟩ 1 ⟨[], [], []⟩
      (.error ['b', 'o', 'o', 'm']) 0 5).db.queries = [] := rfl
  rw [hempty] at hq
  cases hq

/-- C4 (amended): on a turn whose conversation resolves, a pipeline
failure yields an error frame as the final frame, persists no assistant
Message, touches no Query row (the orchestrator has no Query handling,
so nothing is marked failed or completed), and the connection stays
open; a successful turn persists the user and assistant Messages (the
assistant row carrying the answer and the extracted source
attributions), updates the conversation's last-activity metadata,
touches no Query row, and the connection stays open. -/
theorem turn_failure_and_success_effects (req : ChatRequest)
    (userId : Nat) (db : ChatDB) (now newConvId : Nat)
    (hres : req.conversation_id = none ∨
      ∃ cid conv, req.conversation_id = some cid ∧
        db.conversations.find?
          (fun c => c.id == cid && c.user_id == userId) = some conv) :
    (∀ e,
      (processChatMessage req userId db (.error e) now
          newConvId).frames.getLast?
        = some (errorFrame
            ("An error occurred while processing your request: ".toList ++ e)
            req.conversation_id) ∧
      (processChatMessage req userId db (.error e) now
          newConvId).db.messages.filter
          (fun msg => msg.role == Role.assistant)
        = db.messages.filter (fun msg => msg.role == Role.assistant) ∧
      (processChatMessage req userId db (.error e) now newConvId).db.queries
        = db.queries ∧
      (processChatMessage req userId db (.error e) now
          newConvId).connectionOpen = true) ∧
    (∀ res : RagAnswer, ∃ convId,
      (processChatMessage req userId db (.ok res) now newConvId).db.messages
        = db.messages ++
          [{ conversation_id := convId
             role := .user
             content := req.message
             metaSources := none },
           { conversation_id := convId
             role := .assistant
             content := res.answer
             metaSources := some (extractSources res.sources) }] ∧
      (∃ c ∈ (processChatMessage req userId db (.ok res) now
          newConvId).db.conversations,
        c.id = convId ∧ c.updated_at = now ∧
        c.last_question = some (req.message.take 200) ∧
        c.source_count = some (extractSources res.sources).length) ∧
      (processChatMessage req userId db (.ok res) now newConvId).db.queries
        = db.queries ∧
      (processChatMessage req userId db (.ok res) now
          newConvId).connectionOpen = true) := by
  have hfilter : ∀ (cidv : Nat) (msg : List Char),
      List.filter (fun m => m.role == Role.assistant)
        [({ conversation_id := cidv
            role := .user
            content := msg
            metaSources := none } : MessageRow)] = [] := fun _ _ => rfl
  rcases hres with hnone | ⟨cid, conv, hsome, hfind⟩
  · constructor
    · intro e
      simp only [processChatMessage, hnone, processTurnBody_error]
      refine ⟨List.getLast?_concat _, ?_, trivial, trivial⟩
      rw [List.filter_append, hfilter, List.append_nil]
    · intro res
      simp only [processChatMessage, hnone, processTurnBody_ok]
      refine ⟨newConvId, ?_, ?_, trivial, trivial⟩
      · simp [List.append_assoc]
      · refine ⟨_, List.mem_map_of_mem _
          (List.mem_append.2 (Or.inr (List.mem_singleton.2 rfl))), ?_⟩
        simp
  · constructor
    · intro e
      simp only [processChatMessage, hsome, hfind, processTurnBody_error]
      refine ⟨List.getLast?_concat _, ?_, trivial, trivial⟩
      rw [List.filter_append, hfilter, List.append_nil]
    · intro res
      simp only [processChatMessage, hsome, hfind, processTurnBody_ok]
      refine ⟨conv.id, ?_, ?_, trivial, trivial⟩
      · simp [List.append_assoc]
      · refine ⟨_, List.mem_map_of_mem _
          (List.mem_of_find?_eq_some hfind), ?_⟩
        simp

/-- Witness for C4: a failing turn on a fresh conversation ends with
the error frame, keeps the assistant-message and Query tables
untouched, and leaves the connection open. -/
theorem turn_failure_and_success_effects_witness :
    (processChatMessage ⟨['h', 'i'], none, [], 1, true⟩ 1 ⟨[], [], []⟩
        (.error ['b']) 0 5).frames.getLast?
      = some (errorFrame
          ("An error occurred while processing your request: ".toList
            ++ ['b']) none) ∧
    (processChatMessage ⟨['h', 'i'], none, [], 1, true⟩ 1 ⟨[], [], []⟩
        (.error ['b']) 0 5).db.messages.filter
        (fun msg => msg.role == Role.assistant)
      = ([] : List MessageRow).filter (fun msg => msg.role == Role.assistant) ∧
    (processChatMessage ⟨['h', 'i'], none, [], 1, true⟩ 1 ⟨[], [], []⟩
        (.error ['b']) 0 5).db.queries = ([] : List QueryRow) ∧
    (processChatMessage ⟨['h', 'i'], none, [], 1, true⟩ 1 ⟨[], [], []⟩
        (.error ['b']) 0 5).connectionOpen = true :=
  (turn_failure_and_success_effects ⟨['h', 'i'], none, [], 1, true⟩ 1
    ⟨[], [], []⟩ 0 5 (Or.inl rfl)).1 ['b']

/-- C10 counterexample: the claim fails as stated — a `disconnect` that
supplies a user id other than the connection's owner (here user 2 for
user 1's connection) removes the transport entry but leaves the id in
user 1's set, so the maps are inconsistent after a two-operation
sequence from the empty registry. -/
theorem registry_maps_consistent_counterexample :
    ¬ MapsConsistent (applyOps ConnectionManager.empty
      [RegistryOp.connect 0 1 "a" true,
       RegistryOp.disconnect "a" (some 2) true]) := by
  intro h
  have := h.1 (1, ["a"]) (by decide) "a" (by decide)
  revert this
  decide

/-- C10 (amended): after any sequence of connect, disconnect, send and
broadcast operations from the empty registry — where each connect
registers a fresh id (as `uuid4` provides) and any user id supplied to
disconnect is the owner of that connection (as both in-repo call sites
do) — every connection id in some user's set is a key of the transport
map and no user maps to an empty set. -/
theorem registry_maps_consistent_of_safe_trace (ops : List RegistryOp)
    (htrace : SafeTrace ConnectionManager.empty ops) :
    MapsConsistent (applyOps ConnectionManager.empty ops) := by
  have hwf := WF_applyOps htrace WF_empty
  exact ⟨hwf.2.2.2.1, fun p hp => (hwf.2.2.1 p hp).2⟩

/-- Witness for C10: a five-operation trace with a failed send, a
broadcast, and an owner-supplied disconnect keeps the maps
consistent. -/
theorem registry_maps_consistent_of_safe_trace_witness :
    MapsConsistent (applyOps ConnectionManager.empty
      [RegistryOp.connect 7 1 "a" true,
       RegistryOp.connect 8 1 "b" true,
       RegistryOp.send "hello" "a" false,
       RegistryOp.broadcast "hi" 1 (fun _ => true),
       RegistryOp.disconnect "b" (some 1) true]) :=
  registry_maps_consistent_of_safe_trace _
    (SafeTrace.cons (by decide)
      (SafeTrace.cons (by decide)
        (SafeTrace.cons trivial
          (SafeTrace.cons trivial
            (SafeTrace.cons (by decide) (SafeTrace.nil _))))))

end RagBackend
